import Mathlib

/- Shallow embedding of the tablellm document table extraction pipeline. -/

/-- JS whitespace test restricted to the ASCII characters matched by the
regex class backslash-s: space, tab, newline, carriage return, vertical
tab and form feed. -/
def isJsWs (c : Char) : Bool :=
  c = ' ' || c = '\t' || c = '\n' || c = '\r' || c = '\x0b' || c = '\x0c'

/-- Trim JS-style whitespace from both ends of a character list, mirroring
the JavaScript `trim()` used on every markdown line. -/
def jsTrimL (s : List Char) : List Char :=
  (((s.dropWhile isJsWs).reverse).dropWhile isJsWs).reverse

/-- Split a character list at every occurrence of the separator character,
mirroring `String.prototype.split` with a one-character separator. -/
def splitOnChar (sep : Char) : List Char → List (List Char)
  | [] => [[]]
  | c :: cs =>
    if c = sep then
      [] :: splitOnChar sep cs
    else
      match splitOnChar sep cs with
      | [] => [[c]]
      | p :: ps => (c :: p) :: ps

/-- Case-insensitive character equality via ASCII lowercasing, mirroring the
JS regex `i` flag and `toLowerCase()` on ASCII input. -/
def lcEqCh (a b : Char) : Bool := a.toLower = b.toLower

/-- Boolean prefix test on character lists. -/
def hasPrefixCh : List Char → List Char → Bool
  | [], _ => true
  | _ :: _, [] => false
  | a :: as, b :: bs => a = b && hasPrefixCh as bs

/-- Boolean infix (substring) test on character lists; the first argument is
the needle, the second the haystack. -/
def hasInfixCh (needle : List Char) : List Char → Bool
  | [] => needle.isEmpty
  | c :: cs => hasPrefixCh needle (c :: cs) || hasInfixCh needle cs

/-- Case-insensitive substring test mirroring
`hay.toLowerCase().includes(needle.toLowerCase())`. -/
def ciContains (hay needle : String) : Bool :=
  hasInfixCh (needle.data.map Char.toLower) (hay.data.map Char.toLower)

/-- Decimal digit run to a natural number, mirroring `parseInt(p, 10)` on an
all-digit token. -/
def digitsToNat (ds : List Char) : Nat :=
  ds.foldl (fun n c => 10 * n + (c.toNat - 48)) 0

/- ### The heuristic value regex

`findValueByKeys` (extract route) matches each line against the JS regex

  (caret)(?:pipe ws*)?(?:k1|k2|...)ws*(?:pipe|colon|equals|dash)?ws*([caret-pipe]+?)(?:pipe .*)?(dollar)

with the `i` flag.  The matcher below replays the JS backtracking search:
alternatives at each node are tried in the order of the engine (greedy groups
first, alternation left to right, the lazy capture group shortest first),
and the continuation is fully explored before backtracking. -/

/-- Case-insensitive literal match of a key at the head of the input;
returns the remaining characters on success. -/
def dropLit : List Char → List Char → Option (List Char)
  | [], s => some s
  | _ :: _, [] => none
  | k :: ks, c :: cs => if lcEqCh k c then dropLit ks cs else none

/-- Alternatives for a greedy whitespace run: suffixes of the input after
consuming a maximal, then successively shorter, run of JS whitespace,
in the order the backtracking engine tries them. -/
def wsAlts : List Char → List (List Char)
  | [] => [[]]
  | c :: cs => if isJsWs c then wsAlts cs ++ [c :: cs] else [c :: cs]

/-- Alternatives for the optional separator `(?:pipe|colon|equals|dash)?`:
consume one separator character if present (greedy), then the empty
alternative. -/
def sepAlts : List Char → List (List Char)
  | [] => [[]]
  | c :: cs =>
    if c = '|' || c = ':' || c = '=' || c = '-' then [cs, c :: cs] else [c :: cs]

/-- Alternatives for the optional leading `(?:pipe ws*)?`: the greedy branch
(consume the pipe, then a greedy whitespace run) first, then skipping the
group entirely. -/
def preAlts (s : List Char) : List (List Char) :=
  (match s with
   | '|' :: cs => wsAlts cs
   | _ => []) ++ [s]

/-- The tail `([caret-pipe]+?)(?:pipe .*)?(dollar)` of the pattern is
deterministic: the lazy capture must take at least one non-pipe character
and stops at the first pipe (after which `pipe .*` consumes the rest) or at
the end of the line.  Returns the captured group. -/
def tailGroup (t : List Char) : Option (List Char) :=
  match t with
  | [] => none
  | c :: _ => if c = '|' then none else some (t.takeWhile (fun x => x ≠ '|'))

/-- Full backtracking match of the value regex against one (already
trimmed) line, for the given key alternation; returns capture group 1. -/
def matchLine (keys : List String) (line : List Char) : Option (List Char) :=
  (preAlts line).findSome? fun s1 =>
    keys.findSome? fun k =>
      (dropLit k.data s1).bind fun s2 =>
        (wsAlts s2).findSome? fun s3 =>
          (sepAlts s3).findSome? fun s4 =>
            (wsAlts s4).findSome? fun s5 =>
              tailGroup s5

/- ### Line preparation and the two scanning loops of findValueByKeys -/

/-- Markdown line preparation of `heuristicExtract`: strip every carriage
return, split on newlines, trim each line. -/
def linesOf (md : String) : List (List Char) :=
  (splitOnChar '\n' (md.data.filter (fun c => c ≠ '\r'))).map jsTrimL

/-- First loop of `findValueByKeys`: return the trimmed capture group of the
first line the value regex matches. -/
def regexScan (keys : List String) (lines : List (List Char)) : Option String :=
  lines.findSome? fun line => (matchLine keys line).map (fun g => String.mk (jsTrimL g))

/-- Second loop of `findValueByKeys`: a pipe-table row whose first cell
contains one of the keys case-insensitively yields its second cell. -/
def tableRowValue (keys : List String) (line : List Char) : Option String :=
  match line with
  | '|' :: _ =>
    if (splitOnChar '|' line).length ≥ 3 then
      match ((splitOnChar '|' line).drop 1).map jsTrimL with
      | c0 :: c1 :: _ =>
        if keys.any (fun k => ciContains (String.mk c0) k) then some (String.mk c1)
        else none
      | _ => none
    else none
  | _ => none

/-- Second loop of `findValueByKeys` over all lines. -/
def tableScan (keys : List String) (lines : List (List Char)) : Option String :=
  lines.findSome? fun line => tableRowValue keys line

/-- `findValueByKeys` from the extract route: scan every line with the value
regex first; only if no line matches, scan every line as a pipe-table row;
otherwise return the empty string. -/
def findValueByKeys (keys : List String) (lines : List (List Char)) : String :=
  match regexScan keys lines with
  | some v => v
  | none =>
    match tableScan keys lines with
    | some v => v
    | none => ""

/- ### Field schema: SYNONYMS, DEFAULT_FIELDS -/

/-- Per-field keyword rule from the SYNONYMS table of the extract route
(`match` and `exclude` lists; the source field `match` is a reserved word
in Lean and is embedded as `matchTerms`). -/
structure MatchRule where
  matchTerms : List String
  excludeTerms : List String
deriving DecidableEq, Repr

/-- The SYNONYMS table of the extract route (English-keyed version). -/
def SYNONYMS : List (String × MatchRule) :=
  [ (("manufacturer"), ⟨[("manufacturer"), ("maker"), ("brand"), ("company")], []⟩),
    (("pump model name"), ⟨[("pump model name"), ("model"), ("pump model"), ("model name")], []⟩),
    (("rated flow"), ⟨[("rated flow"), ("q rated"), ("q at rated"), ("flow")],
      [("nominal flow"), ("flow (nominal)")]⟩),
    (("normal flow"), ⟨[("normal flow"), ("nominal flow"), ("flow (nominal)"), ("q nominal")],
      [("rated flow")]⟩),
    (("TDH"), ⟨[("tdh"), ("total dynamic head"), ("head"), ("head (at qmax.-qnominal-qmin.)"),
      ("shutoff head")], []⟩),
    (("casing material"), ⟨[("casing material"), ("pump casing material"), ("casing")], []⟩),
    (("shaft material"), ⟨[("shaft material"), ("shaft material (pump)"), ("shaft")], []⟩),
    (("impeller material"), ⟨[("impeller material"), ("impeller")], []⟩),
    (("shaft power"), ⟨[("shaft power"), ("shaft power (p2)"), ("p2"), ("power (shaft)")], []⟩),
    (("pump efficiency"), ⟨[("pump efficiency"), ("max. pump efficiency"), ("efficiency")], []⟩),
    (("max flow"), ⟨[("max flow"), ("q max"), ("maximum flow")], []⟩),
    (("min flow"), ⟨[("min flow"), ("q min"), ("minimum flow")], []⟩),
    (("shutoff TDH"), ⟨[("shutoff tdh"), ("shut-off head"), ("shut off head"), ("head at shutoff")],
      [("head at QMax"), ("head at QMin"), ("TDH")]⟩) ]

/-- The DEFAULT_FIELDS list of the extract route. -/
def DEFAULT_FIELDS : List String :=
  [("manufacturer"), ("pump model name"), ("rated flow"), ("max flow"), ("min flow"),
   ("normal flow"), ("TDH"), ("casing material"), ("shaft material"), ("impeller material"),
   ("shaft power"), ("pump efficiency"), ("shutoff TDH")]

/-- Lookup of a field in the SYNONYMS table. -/
def synLookup (k : String) : Option MatchRule :=
  (SYNONYMS.find? (fun p => p.1 = k)).map Prod.snd

/-- The effective key list for a field: the one of its rule when that rule
has a non-empty `match` list, otherwise the literal field name
(`syn?.match?.length ? syn.match : [key]`). -/
def effKeys (k : String) : List String :=
  match synLookup k with
  | some r => if r.matchTerms ≠ [] then r.matchTerms else [k]
  | none => [k]

/-- The exclude list for a field (`syn?.exclude ?? []`). -/
def effExclude (k : String) : List String :=
  match synLookup k with
  | some r => r.excludeTerms
  | none => []

/-- The per-field loop body of `heuristicExtract`: find a candidate value,
then blank it when it matches an exclude term without also matching one of
the own match terms of the field. -/
def heurValue (md : String) (k : String) : String :=
  let keys := effKeys k
  let excl := effExclude k
  let v := findValueByKeys keys (linesOf md)
  if excl ≠ [] ∧ v ≠ ("") ∧
      (¬ keys.any (fun kk => ciContains v kk)) ∧ (excl.any (fun ex => ciContains v ex)) then
    ("")
  else v

/- ### JS object model for the extract route -/

/-- Scalar JSON values a model response object can carry; `toStr` mirrors
the coercion `(x ?? emptyString).toString()` of the route (absent and null
become the empty string). -/
inductive JSVal where
  | str (s : String)
  | num (n : Int)
  | bool (b : Bool)
  | null
deriving DecidableEq, Repr

/-- JS string coercion of an optional property value:
`(obj?.[key] ?? emptyString).toString()`. -/
def jsvalCoerce : Option JSVal → String
  | none => ("")
  | some .null => ("")
  | some (.str s) => s
  | some (.num n) => toString n
  | some (.bool b) => toString b

/-- JS object property write `o[k] = v`: overwrite in place when the key
exists (keeping its position), else append. -/
def objInsert {β : Type} (o : List (String × β)) (k : String) (v : β) : List (String × β) :=
  if o.any (fun p => p.1 = k) then
    o.map (fun p => if p.1 = k then (p.1, v) else p)
  else o ++ [(k, v)]

/-- JS object property read `o?.[k]`. -/
def objGet {β : Type} (o : List (String × β)) (k : String) : Option β :=
  (o.find? (fun p => p.1 = k)).map Prod.snd

/-- Key list of an object, in property order. -/
def objKeys {β : Type} (o : List (String × β)) : List String := o.map Prod.fst

/-- Build an object by assigning `f k` to every key of `ks` in order, the
shape of every `for (const key of requested) result[key] = f(key)` loop in
the extract route. -/
def buildObj {β : Type} (f : String → β) (ks : List String) : List (String × β) :=
  ks.foldl (fun acc k => objInsert acc k (f k)) []

/-- `heuristicExtract(markdown, requested)`: one candidate value per
requested field, collected into a string-valued object. -/
def heuristicExtract (md : String) (requested : List String) : List (String × String) :=
  buildObj (fun k => heurValue md k) requested

/-- `normalizeFields(obj, requested)`: exactly the requested keys, each
value the string coercion of the raw property. -/
def normalizeFields (obj : List (String × JSVal)) (requested : List String) :
    List (String × String) :=
  buildObj (fun k => jsvalCoerce (objGet obj k)) requested

/-- The alias rename target `aliases[k] || k` (an alias mapping to the
empty string is falsy and leaves the key unchanged). -/
def aliasTarget (aliases : List (String × String)) (k : String) : String :=
  match objGet aliases k with
  | some t => if t = ("") then k else t
  | none => k

/-- Alias reconciliation of the extract route: rebuild the object, renaming
every key through `aliases[k] || k` in property order. -/
def applyAliases {β : Type} (aliases : List (String × String)) (obj : List (String × β)) :
    List (String × β) :=
  obj.foldl (fun acc p => objInsert acc (aliasTarget aliases p.1) p.2) []

/-- The final safety loop of the extract POST handler
(`safe[k] = (fields[k] ?? emptyString).toString()` over the requested
fields), applied after `normalizeFields`. -/
def normalizeStep (obj : List (String × JSVal)) (requested : List String) :
    List (String × String) :=
  let fields := normalizeFields obj requested
  buildObj (fun k => (objGet fields k).getD ("")) requested

/-- The heuristic fallback result viewed as a JSON object (its values are
the heuristic strings). -/
def heuristicFallbackObj (md : String) (requested : List String) : List (String × JSVal) :=
  (heuristicExtract md requested).map (fun p => (p.1, JSVal.str p.2))

/- ### The extract POST handler -/

/-- Outcome of the guarded model call of the extract route, abstracted at
the object boundary: `threw` covers a missing API key or any thrown network
error (the catch block leaves `parsed` empty), `parsed o` is the object
obtained from `coerceToPlainJson` of a successful response. -/
inductive ModelOutcome where
  | threw
  | parsed (o : List (String × JSVal))

/-- HTTP response of the extract POST handler (status 400, or 200 with the
field map and the order list). -/
inductive ExtractResp where
  | badRequest
  | ok (fields : List (String × String)) (order : List String)
deriving DecidableEq, Repr

/-- The requested field list: the `fields` array of the body when it is a non-empty
array, else DEFAULT_FIELDS. -/
def requestedOf (fieldsParam : Option (List String)) : List String :=
  match fieldsParam with
  | some (f :: fs) => f :: fs
  | _ => DEFAULT_FIELDS

/-- Markdown truncation of the extract route: payloads beyond 20000
characters are cut. -/
def truncMd (md : String) : String :=
  if md.data.length > 20000 then String.mk (md.data.take 20000) else md

/-- The extract POST handler: blank-markdown check, truncation, guarded
model call (its outcome given as `outcome`), heuristic fallback when the
parsed object is empty, alias reconciliation, normalization and the final
safety loop. -/
def extractPOST (markdown : Option String) (fieldsParam : Option (List String))
    (aliases : List (String × String)) (outcome : ModelOutcome) : ExtractResp :=
  match markdown with
  | none => .badRequest
  | some md =>
    if jsTrimL md.data = [] then .badRequest
    else
      let md1 := truncMd md
      let requested := requestedOf fieldsParam
      let parsed0 : List (String × JSVal) :=
        match outcome with
        | .threw => []
        | .parsed o => o
      let parsed1 :=
        if parsed0.isEmpty then heuristicFallbackObj md1 requested
        else parsed0
      let parsed2 := applyAliases aliases parsed1
      .ok (normalizeStep parsed2 requested) requested

/- ### Convert route: page spec parsing and page selection -/

/-- Insert a page number into an ascending duplicate-free list, keeping it
ascending and duplicate-free; folding this over the collected page numbers
models `Array.from(set).sort((a, b) => a - b)` over a JS `Set`. -/
def insSorted (n : Nat) : List Nat → List Nat
  | [] => [n]
  | m :: ms =>
    if n < m then n :: m :: ms
    else if n = m then m :: ms
    else m :: insSorted n ms

/-- Sorted duplicate-free list of all collected page numbers. -/
def sortedDedup (l : List Nat) : List Nat :=
  l.foldl (fun acc n => insSorted n acc) []

/-- Parse of a range token against `^(\d+)\s*-\s*(\d+)$`: a digit run, an
optional whitespace run, a dash, an optional whitespace run, a digit run,
end of token. -/
def parseRangeTok (cs : List Char) : Option (Nat × Nat) :=
  let d1 := cs.takeWhile Char.isDigit
  let r1 := (cs.dropWhile Char.isDigit).dropWhile isJsWs
  if d1 = [] then none
  else
    match r1 with
    | '-' :: r2 =>
      let r3 := r2.dropWhile isJsWs
      let d2 := r3.takeWhile Char.isDigit
      if d2 = [] ∨ r3.dropWhile Char.isDigit ≠ [] then none
      else some (digitsToNat d1, digitsToNat d2)
    | _ => none

/-- Pages contributed by one comma-separated token of a page spec: an
all-digit token is kept only when inside `[1, total]`; a range token has
its ends swapped when reversed and is clamped to `[1, total]`; anything
else is ignored. -/
def tokenPages (total : Nat) (tok : List Char) : List Nat :=
  if tok ≠ [] ∧ tok.all Char.isDigit then
    let n := digitsToNat tok
    if 1 ≤ n ∧ n ≤ total then [n] else []
  else
    match parseRangeTok tok with
    | some ab =>
      let a0 := if ab.1 > ab.2 then ab.2 else ab.1
      let b0 := if ab.1 > ab.2 then ab.1 else ab.2
      let a := max 1 a0
      let b := min total b0
      List.range' a (b + 1 - a)
    | none => []

/-- `parsePageSpec(spec, total)` of the convert route. -/
def parsePageSpec (spec : String) (total : Nat) : List Nat :=
  if spec = ("") then []
  else
    let parts := ((splitOnChar ',' spec.data).map jsTrimL).filter (fun p => p ≠ [])
    sortedDedup (parts.foldl (fun acc p => acc ++ tokenPages total p) [])

/-- Number.MAX_SAFE_INTEGER, used by the route when no explicit page cap is
configured. -/
def MAX_SAFE : Nat := 9007199254740991

/-- Page selection of `pdfToImageDataUrls`: clamp the page window from
`start`, `end`, `maxPages` and the page count, then either filter the
include list to the window minus the exclude set, or take the whole window
minus the exclude set. -/
def selectPages (totalPages start : Nat) (endP maxP : Option Nat)
    (pagesSpec excludeSpec : String) : List Nat :=
  let lastByMax := min totalPages (start + maxP.getD MAX_SAFE - 1)
  let lastByEnd := match endP with | some e => min e totalPages | none => totalPages
  let lastPage := min lastByMax lastByEnd
  let firstPage := min (max 1 start) lastPage
  let includeList := parsePageSpec pagesSpec totalPages
  let excludeList := parsePageSpec excludeSpec totalPages
  if includeList ≠ [] then
    includeList.filter fun p =>
      decide (firstPage ≤ p) && decide (p ≤ lastPage) && !(excludeList.contains p)
  else
    (List.range' firstPage (lastPage + 1 - firstPage)).filter fun p =>
      !(excludeList.contains p)

/- ### Convert route: page aggregation and image mode -/

/-- Stable insertion of a page result into a list ascending by page
number. -/
def insertByPage (x : Nat × String) : List (Nat × String) → List (Nat × String)
  | [] => [x]
  | y :: ys => if x.1 ≤ y.1 then x :: y :: ys else y :: insertByPage x ys

/-- Stable ascending sort by page number, modelling the JS stable
`Array.prototype.sort((a, b) => a.page - b.page)`. -/
def sortByPage (l : List (Nat × String)) : List (Nat × String) :=
  l.foldr insertByPage []

/-- The per-page heading prefix applied to a surviving page. -/
def pageHeading (p : Nat) (c : String) : String :=
  ("### Page ") ++ toString p ++ ("\n\n") ++ c

/-- Join a list of strings with a separator, mirroring
`Array.prototype.join`. -/
def joinSep (sep : String) : List String → String
  | [] => ("")
  | [x] => x
  | x :: y :: ys => x ++ sep ++ joinSep sep (y :: ys)

/-- Aggregation of the PDF branch: trim each page response (as the per-page
worker does), drop pages whose trimmed text is empty or contains the phrase
matched by `/No tables detected/i`, sort ascending by page, prefix each
survivor with its page heading, join with a blank line, and fall back to
the document sentinel when nothing survives. -/
def aggregatePages (pageResults : List (Nat × String)) : String :=
  let trimmed := pageResults.map fun r => (r.1, String.mk (jsTrimL r.2.data))
  let survivors := trimmed.filter fun r =>
    r.2 ≠ ("") && !(ciContains r.2 ("No tables detected"))
  let parts := (sortByPage survivors).map fun r => pageHeading r.1 r.2
  if parts ≠ [] then joinSep ("\n\n") parts
  else ("No tables detected in the document.")

/-- Image-mode markdown:
`response.choices[0]?.message?.content || "No content extracted"`. -/
def imageMarkdown (resp : Option String) : String :=
  match resp with
  | none => ("No content extracted")
  | some c => if c = ("") then ("No content extracted") else c

/- ### The convert POST handler -/

/-- Lowercase a string (ASCII), mirroring `toLowerCase()`. -/
def lowerStr (s : String) : String := String.mk (s.data.map Char.toLower)

/-- Boolean suffix test on character lists. -/
def hasSuffixCh (needle s : List Char) : Bool :=
  hasPrefixCh needle.reverse s.reverse

/-- Parsed shapes of a convert request body. -/
inductive ConvertReq where
  | jsonBody (dataUrl : Option String)
  | formFile (fileType : String) (fileName : String)
  | formNoFile
  | otherContentType

/-- HTTP response of the convert POST handler. -/
inductive ConvertResp where
  | ok (markdown : String)
  | err (status : Nat) (error : String) (details : Option String)
deriving DecidableEq, Repr

/-- Internal processing mode after request validation. -/
inductive ConvertMode where
  | image
  | pdf
deriving DecidableEq, Repr

/-- Request validation of the convert POST handler: JSON bodies need an
image data URL, multipart bodies an image or PDF file; anything else is a
4xx or 415. -/
def resolveMode (req : ConvertReq) : Sum ConvertResp ConvertMode :=
  match req with
  | .jsonBody du =>
    match du with
    | some d =>
      if hasPrefixCh (("data:image/").data) d.data then .inr .image
      else .inl (.err 400 ("Invalid payload. Provide image dataUrl for JSON requests.") none)
    | none => .inl (.err 400 ("Invalid payload. Provide image dataUrl for JSON requests.") none)
  | .formFile ft name =>
    if hasPrefixCh (("image/").data) (lowerStr ft).data then .inr .image
    else if lowerStr ft = ("application/pdf")
        || hasSuffixCh ((".pdf").data) (lowerStr name).data then .inr .pdf
    else .inl (.err 400 (("Unsupported file type: ") ++ ft) none)
  | .formNoFile =>
    .inl (.err 400 ("No file field found in form-data (expected name: \x22file\x22).") none)
  | .otherContentType => .inl (.err 415 ("Unsupported Content-Type.") none)

/-- The convert POST handler.  The vision model is abstracted by two
oracles for the successful-call case: `imageResp` is the content returned
for a single image, `pageResp` the content returned for each rendered PDF
page.  An empty page selection throws inside `pdfToImageDataUrls` and is
caught by the outer handler as a 500. -/
def convertPOST (req : ConvertReq) (clientOk : Bool) (imageResp : Option String)
    (totalPages start : Nat) (endP maxP : Option Nat) (pagesSpec excludeSpec : String)
    (pageResp : Nat → String) : ConvertResp :=
  match resolveMode req with
  | .inl resp => resp
  | .inr mode =>
    if clientOk = false then .err 500 ("OpenAI client not initialized") none
    else
      match mode with
      | .image => .ok (imageMarkdown imageResp)
      | .pdf =>
        let sel := selectPages totalPages start endP maxP pagesSpec excludeSpec
        if sel = [] then
          .err 500 ("Failed to convert to Markdown.")
            (some ("No pages selected after applying include/exclude."))
        else .ok (aggregatePages (sel.map fun p => (p, pageResp p)))

/- ### The bounded-concurrency dispatcher mapLimit

`mapLimit` starts tasks in input order while fewer than `limit` are in
flight; each completion stores its result at the input index of the task and
launches more; the promise resolves once all inputs have been started and
none is in flight.  The machine below makes the nondeterministic completion
order explicit: a schedule entry picks which in-flight task finishes next,
and the per-task computation is the pure `fn` of its input index. -/

/-- Dispatcher state: the next input index to start, the indices currently
in flight, and the result slots. -/
structure MState (β : Type) where
  nextIndex : Nat
  active : List Nat
  results : List (Option β)
deriving Repr

/-- The `launchNext` while loop: start tasks while fewer than `limit` are
in flight and inputs remain, with fuel `n - nextIndex`. -/
def launchLoop (limit n : Nat) : Nat → MState β → MState β
  | 0, s => s
  | fuel + 1, s =>
    if s.active.length < limit ∧ s.nextIndex < n then
      launchLoop limit n fuel
        { s with nextIndex := s.nextIndex + 1, active := s.active ++ [s.nextIndex] }
    else s

/-- Start as many tasks as the limit allows. -/
def launchNext (limit n : Nat) (s : MState β) : MState β :=
  launchLoop limit n (n - s.nextIndex) s

/-- One completion event: the in-flight task at position `j` of the active
list finishes, stores `fn i` at its input index `i`, and more tasks are
launched. -/
def dispatchStep (limit n : Nat) (fn : Nat → β) (j : Nat) (s : MState β) : MState β :=
  match s.active.get? j with
  | none => s
  | some i =>
    launchNext limit n
      { s with active := s.active.eraseIdx j, results := s.results.set i (some (fn i)) }

/-- Run the dispatcher on `n` inputs from the initial state under a
schedule of completion choices. -/
def runMapLimit (limit n : Nat) (fn : Nat → β) (sched : List Nat) : MState β :=
  sched.foldl (fun s j => dispatchStep limit n fn j s)
    (launchNext limit n ⟨0, [], List.replicate n none⟩)

/- ### Lemmas about the JS object model -/

theorem objGet_replaceMap {β : Type} (o : List (String × β)) (k k' : String) (v : β) :
    objGet (o.map (fun p => if p.1 = k then (p.1, v) else p)) k' =
      if k' = k then (if o.any (fun p => p.1 = k) then some v else none)
      else objGet o k' := by
  induction o with
  | nil => by_cases h : k' = k <;> simp [objGet, h]
  | cons p ps ih =>
    by_cases hp : p.1 = k <;> by_cases hk : k' = k <;> by_cases hpk : p.1 = k' <;>
      simp_all [objGet, List.find?_cons] <;>
      (try simp only [decide_eq_false hp, Bool.false_or])

theorem objGet_append_single {β : Type} (o : List (String × β)) (k k' : String) (v : β) :
    objGet (o ++ [(k, v)]) k' =
      ((objGet o k').or (if k' = k then some v else none)) := by
  by_cases hk : k' = k
  · simp [objGet, List.find?_append, hk, Option.map_or']
  · have hk2 : ¬ k = k' := fun h => hk h.symm
    simp [objGet, List.find?_append, hk, hk2, Option.map_or']

theorem objGet_insert_self {β : Type} (o : List (String × β)) (k : String) (v : β) :
    objGet (objInsert o k v) k = some v := by
  unfold objInsert
  by_cases h : o.any (fun p => p.1 = k)
  · rw [if_pos h, objGet_replaceMap, if_pos rfl, if_pos h]
  · rw [if_neg h, objGet_append_single, if_pos rfl]
    have hfind : List.find? (fun p => decide (p.1 = k)) o = none := by
      rw [List.find?_eq_none]
      intro x hx
      simp only [List.any_eq_true, decide_eq_true_eq, not_exists, not_and] at h
      simpa using h x hx
    simp [objGet, hfind]

theorem objGet_insert_ne {β : Type} (o : List (String × β)) (k k' : String) (v : β)
    (hne : k' ≠ k) : objGet (objInsert o k v) k' = objGet o k' := by
  unfold objInsert
  by_cases h : o.any (fun p => p.1 = k)
  · simp [h, objGet_replaceMap, hne]
  · simp [h, objGet_append_single, hne, Option.or_none]

theorem objKeys_insert {β : Type} (o : List (String × β)) (k : String) (v : β) :
    ∀ k', k' ∈ objKeys (objInsert o k v) ↔ (k' = k ∨ k' ∈ objKeys o) := by
  intro k'
  unfold objInsert
  by_cases h : o.any (fun p => p.1 = k)
  · have hkeys : objKeys (o.map (fun p => if p.1 = k then (p.1, v) else p)) = objKeys o := by
      simp only [objKeys, List.map_map]
      apply List.map_congr_left
      intro p _
      by_cases hp : p.1 = k <;> simp [hp]
    have hk : k ∈ objKeys o := by
      simp only [List.any_eq_true, decide_eq_true_eq] at h
      obtain ⟨p, hp, he⟩ := h
      exact he ▸ List.mem_map_of_mem Prod.fst hp
    simp only [h, if_true, hkeys]
    constructor
    · exact Or.inr
    · rintro (rfl | hm)
      · exact hk
      · exact hm
  · simp [h, objKeys, or_comm]

theorem objInsert_mem {β : Type} {o : List (String × β)} {k : String} {v : β}
    {q : String × β} (hq : q ∈ objInsert o k v) : q.2 = v ∨ q ∈ o := by
  unfold objInsert at hq
  by_cases h : o.any (fun p => p.1 = k)
  · simp only [h, if_true, List.mem_map] at hq
    obtain ⟨p, hp, he⟩ := hq
    by_cases hpk : p.1 = k
    · simp only [if_pos hpk] at he
      exact Or.inl (he ▸ rfl)
    · simp only [if_neg hpk] at he
      exact Or.inr (he ▸ hp)
  · rw [if_neg h] at hq
    rcases List.mem_append.mp hq with hq | hq
    · exact Or.inr hq
    · simp only [List.mem_singleton] at hq
      exact Or.inl (hq ▸ rfl)

/- ### Lemmas about buildObj -/

theorem objGet_buildFold {β : Type} (f : String → β) (ks : List String)
    (acc : List (String × β)) (k : String) :
    objGet (ks.foldl (fun a kk => objInsert a kk (f kk)) acc) k =
      if k ∈ ks then some (f k) else objGet acc k := by
  induction ks generalizing acc with
  | nil => simp
  | cons k0 ks ih =>
    simp only [List.foldl_cons, ih, List.mem_cons]
    by_cases hk : k ∈ ks
    · simp [hk]
    · by_cases he : k = k0
      · simp [hk, he, objGet_insert_self]
      · simp [hk, he, objGet_insert_ne acc k0 k (f k0) he]

theorem objGet_buildObj {β : Type} (f : String → β) (ks : List String) (k : String) :
    objGet (buildObj f ks) k = if k ∈ ks then some (f k) else none := by
  unfold buildObj
  rw [objGet_buildFold]
  simp [objGet]

theorem objKeys_buildFold {β : Type} (f : String → β) (ks : List String)
    (acc : List (String × β)) (k : String) :
    k ∈ objKeys (ks.foldl (fun a kk => objInsert a kk (f kk)) acc) ↔
      (k ∈ ks ∨ k ∈ objKeys acc) := by
  induction ks generalizing acc with
  | nil => simp
  | cons k0 ks ih =>
    simp only [List.foldl_cons, ih, List.mem_cons, objKeys_insert]
    tauto

theorem objKeys_buildObj {β : Type} (f : String → β) (ks : List String) (k : String) :
    k ∈ objKeys (buildObj f ks) ↔ k ∈ ks := by
  unfold buildObj
  rw [objKeys_buildFold]
  simp [objKeys]

theorem buildFold_val {β : Type} (P : β → Prop) (f : String → β) (ks : List String)
    (acc : List (String × β)) (hacc : ∀ q ∈ acc, P q.2) (hf : ∀ k ∈ ks, P (f k)) :
    ∀ q ∈ ks.foldl (fun a kk => objInsert a kk (f kk)) acc, P q.2 := by
  induction ks generalizing acc with
  | nil => simpa using hacc
  | cons k0 ks ih =>
    simp only [List.foldl_cons]
    refine ih _ ?_ (fun k hk => hf k (List.mem_cons_of_mem _ hk))
    intro q hq
    rcases objInsert_mem hq with h | h
    · exact h ▸ hf k0 (List.mem_cons_self _ _)
    · exact hacc q h

theorem applyAliases_val {β : Type} (P : β → Prop) (aliases : List (String × String))
    (obj : List (String × β)) (hobj : ∀ q ∈ obj, P q.2) :
    ∀ q ∈ applyAliases aliases obj, P q.2 := by
  unfold applyAliases
  suffices h : ∀ acc, (∀ q ∈ acc, P q.2) →
      ∀ q ∈ obj.foldl (fun a p => objInsert a (aliasTarget aliases p.1) p.2) acc, P q.2 by
    exact h [] (by simp)
  induction obj with
  | nil => intro acc hacc; simpa using hacc
  | cons p ps ih =>
    intro acc hacc
    simp only [List.foldl_cons]
    refine ih (fun q hq => hobj q (List.mem_cons_of_mem _ hq)) _ ?_
    intro q hq
    rcases objInsert_mem hq with h | h
    · exact h ▸ hobj p (List.mem_cons_self _ _)
    · exact hacc q h

theorem objGet_some_mem {β : Type} {o : List (String × β)} {k : String} {v : β}
    (h : objGet o k = some v) : ∃ p ∈ o, p.2 = v := by
  unfold objGet at h
  cases hf : List.find? (fun p => decide (p.1 = k)) o with
  | none => rw [hf] at h; exact absurd h (by simp)
  | some q =>
    rw [hf] at h
    simp only [Option.map_some', Option.some.injEq] at h
    exact ⟨q, List.mem_of_find?_eq_some hf, h⟩

/- ### Shared facts about the normalization step -/

theorem normalizeStep_keys (obj : List (String × JSVal)) (requested : List String)
    (k : String) : k ∈ objKeys (normalizeStep obj requested) ↔ k ∈ requested := by
  unfold normalizeStep
  exact objKeys_buildObj _ _ _

theorem normalizeStep_get (obj : List (String × JSVal)) (requested : List String)
    (k : String) (hk : k ∈ requested) :
    objGet (normalizeStep obj requested) k = some (jsvalCoerce (objGet obj k)) := by
  unfold normalizeStep
  rw [objGet_buildObj, if_pos hk]
  unfold normalizeFields
  rw [objGet_buildObj, if_pos hk]
  rfl

/- ### Claim C1 -/

/-- C1: for every raw extraction result (model or heuristic path, and any
alias pass) and every requested field list, the final normalization step of
the Extract operation returns a mapping whose key set equals exactly the
requested field list, whose values are strings (the codomain of the
embedded map), where a requested field reads back as the string coercion of
its raw property, and where a field absent from the raw mapping gets the
empty string; moreover every 200 response of the extract handler has a
field map whose key set equals exactly the returned order list. -/
theorem c1_normalize_exact_fields (obj : List (String × JSVal)) (requested : List String) :
    (∀ k, k ∈ objKeys (normalizeStep obj requested) ↔ k ∈ requested) ∧
    (∀ k, k ∈ requested →
      objGet (normalizeStep obj requested) k = some (jsvalCoerce (objGet obj k))) ∧
    (∀ k, k ∈ requested → objGet obj k = none →
      objGet (normalizeStep obj requested) k = some ("")) ∧
    (∀ md fp al oc flds ord, extractPOST md fp al oc = .ok flds ord →
      ∀ k, k ∈ objKeys flds ↔ k ∈ ord) := by
  refine ⟨fun k => normalizeStep_keys obj requested k,
    fun k hk => normalizeStep_get obj requested k hk, fun k hk habs => ?_, ?_⟩
  · rw [normalizeStep_get obj requested k hk, habs]; rfl
  · intro md fp al oc flds ord hok k
    match md with
    | none => exact absurd hok (by simp [extractPOST])
    | some m =>
      by_cases hb : jsTrimL m.data = []
      · exact absurd hok (by simp [extractPOST, hb])
      · simp only [extractPOST, if_neg hb, ExtractResp.ok.injEq] at hok
        obtain ⟨hf, ho⟩ := hok
        rw [← hf, ← ho]
        exact normalizeStep_keys _ _ k

/-- Witness for C1 at a concrete raw object and field list. -/
theorem c1_normalize_exact_fields_witness :
    objGet (normalizeStep ([(("a"), JSVal.num 7)]) ([("a"), ("b")])) ("b") = some ("") :=
  (c1_normalize_exact_fields ([(("a"), JSVal.num 7)]) ([("a"), ("b")])).2.2.1 ("b")
    (by decide) (by decide)

/- ### Claim C2 -/

/-- C2: for every Extract request with non-blank markdown, a thrown model
call (missing API key, network error) is never surfaced: the handler
returns the 200 response computed from the heuristic extractor, and when
the heuristic also yields nothing (every candidate empty) the response maps
every requested field to the empty string instead of erroring. -/
theorem c2_model_failure_recovered (md : String) (fp : Option (List String))
    (al : List (String × String)) (h : jsTrimL md.data ≠ []) :
    extractPOST (some md) fp al .threw =
      .ok (normalizeStep (applyAliases al (heuristicFallbackObj (truncMd md) (requestedOf fp)))
        (requestedOf fp)) (requestedOf fp) ∧
    ((∀ k ∈ requestedOf fp, heurValue (truncMd md) k = ("")) →
      ∀ k ∈ requestedOf fp,
        objGet (normalizeStep
          (applyAliases al (heuristicFallbackObj (truncMd md) (requestedOf fp)))
          (requestedOf fp)) k = some ("")) := by
  constructor
  · simp [extractPOST, h]
  · intro hall k hk
    rw [normalizeStep_get _ _ k hk]
    have hvals : ∀ q ∈ applyAliases al (heuristicFallbackObj (truncMd md) (requestedOf fp)),
        q.2 = JSVal.str ("") := by
      refine applyAliases_val (fun v => v = JSVal.str ("")) al _ ?_
      intro q hq
      simp only [heuristicFallbackObj, List.mem_map] at hq
      obtain ⟨p, hp, hpe⟩ := hq
      have hp2 : p.2 = ("") := by
        revert hp
        refine buildFold_val (fun v => v = ("")) (fun k => heurValue (truncMd md) k)
          (requestedOf fp) [] (by simp) hall p
      rw [← hpe]
      simp [hp2]
    cases hg : objGet (applyAliases al (heuristicFallbackObj (truncMd md) (requestedOf fp))) k with
    | none => rfl
    | some v =>
      obtain ⟨q, hq, hqv⟩ := objGet_some_mem hg
      rw [← hqv, hvals q hq]
      rfl

/-- Witness for C2: a one-character markdown on which the heuristic finds
nothing; the handler still answers 200 with the default fields all empty. -/
theorem c2_model_failure_recovered_witness :
    objGet (normalizeStep
        (applyAliases [] (heuristicFallbackObj (truncMd ("x")) (requestedOf none)))
        (requestedOf none)) ("TDH") = some ("") :=
  (c2_model_failure_recovered ("x") none [] (by decide)).2 (by decide) ("TDH") (by decide)

/- ### Sortedness of the page spec parser -/

theorem insSorted_mem (n : Nat) (l : List Nat) (m : Nat) :
    m ∈ insSorted n l ↔ (m = n ∨ m ∈ l) := by
  induction l with
  | nil => simp [insSorted]
  | cons a as ih =>
    unfold insSorted
    by_cases h1 : n < a
    · simp [h1, or_comm, or_assoc, or_left_comm]
    · by_cases h2 : n = a
      · rw [if_neg h1, if_pos h2]
        subst h2
        constructor
        · exact fun hm => Or.inr hm
        · intro hm
          rcases hm with rfl | hm
          · exact List.mem_cons_self _ _
          · exact hm
      · simp only [if_neg h1, if_neg h2, List.mem_cons, ih]
        tauto

theorem insSorted_sorted (n : Nat) (l : List Nat) (h : l.Sorted (· < ·)) :
    (insSorted n l).Sorted (· < ·) := by
  induction l with
  | nil => simp [insSorted]
  | cons a as ih =>
    rw [List.sorted_cons] at h
    obtain ⟨ha, has⟩ := h
    unfold insSorted
    by_cases h1 : n < a
    · rw [if_pos h1, List.sorted_cons]
      refine ⟨?_, List.sorted_cons.mpr ⟨ha, has⟩⟩
      intro b hb
      rcases List.mem_cons.mp hb with rfl | hb
      · exact h1
      · exact h1.trans (ha b hb)
    · by_cases h2 : n = a
      · rw [if_neg h1, if_pos h2]
        exact List.sorted_cons.mpr ⟨ha, has⟩
      · have han : a < n := Nat.lt_of_le_of_ne (Nat.le_of_not_lt h1) (fun he => h2 he.symm)
        rw [if_neg h1, if_neg h2, List.sorted_cons]
        refine ⟨?_, ih has⟩
        intro b hb
        rcases (insSorted_mem n as b).mp hb with rfl | hb
        · exact han
        · exact ha b hb

theorem sortedDedup_sorted (l : List Nat) : (sortedDedup l).Sorted (· < ·) := by
  unfold sortedDedup
  suffices h : ∀ acc : List Nat, acc.Sorted (· < ·) →
      (l.foldl (fun acc n => insSorted n acc) acc).Sorted (· < ·) by
    exact h [] (by simp)
  induction l with
  | nil => intro acc hacc; simpa using hacc
  | cons a as ih =>
    intro acc hacc
    simp only [List.foldl_cons]
    exact ih _ (insSorted_sorted a acc hacc)

theorem parsePageSpec_sorted (spec : String) (total : Nat) :
    (parsePageSpec spec total).Sorted (· < ·) := by
  unfold parsePageSpec
  by_cases h : spec = ("")
  · simp [h]
  · simp only [h, if_false]
    exact sortedDedup_sorted _

/- ### Claim C3 -/

/-- C3: the spec examples of parsePageSpec hold (comma list with a range;
out-of-range single tokens dropped; reversed range auto-corrected), and in
general the parse is strictly ascending and duplicate-free. -/
theorem c3_parsePageSpec_examples_sorted :
    parsePageSpec ("1,3,5-7") 10 = [1, 3, 5, 6, 7] ∧
    parsePageSpec ("0,11") 10 = [] ∧
    parsePageSpec ("7-5") 10 = [5, 6, 7] ∧
    (∀ spec total, (parsePageSpec spec total).Sorted (· < ·) ∧
      (parsePageSpec spec total).Nodup) := by
  refine ⟨by decide, by decide, by decide, fun spec total => ?_⟩
  have hs := parsePageSpec_sorted spec total
  exact ⟨hs, hs.nodup⟩

/- ### Claim C4 -/

/-- Page selection as the specification words it: the include list filtered
to the window minus the exclude set when non-empty, otherwise the full
window minus the exclude set, with the window computed from start, end,
maxPages and the page count. -/
def selectPagesSpec (totalPages start : Nat) (endP maxP : Option Nat)
    (pagesSpec excludeSpec : String) : List Nat :=
  let lastByMax := min totalPages (start + maxP.getD MAX_SAFE - 1)
  let lastByEnd := match endP with | some e => min e totalPages | none => totalPages
  let lastPage := min lastByMax lastByEnd
  let firstPage := min (max 1 start) lastPage
  let includeList := parsePageSpec pagesSpec totalPages
  let excl := parsePageSpec excludeSpec totalPages
  if includeList ≠ [] then
    includeList.filter fun p => decide (firstPage ≤ p ∧ p ≤ lastPage ∧ p ∉ excl)
  else
    (List.range' firstPage (lastPage + 1 - firstPage)).filter fun p => decide (p ∉ excl)

/-- C4: the page selection equals the specification formulation (include
list filtered to the window minus the exclude set when non-empty, else the
whole window minus the exclude set), it is strictly ascending and
duplicate-free, and the spec example (ten pages, start 3, end 8,
exclude 5) resolves to pages 3, 4, 6, 7, 8. -/
theorem c4_selectPages_composition :
    (∀ total start endP maxP inc exc,
      selectPages total start endP maxP inc exc =
        selectPagesSpec total start endP maxP inc exc ∧
      (selectPages total start endP maxP inc exc).Sorted (· < ·) ∧
      (selectPages total start endP maxP inc exc).Nodup) ∧
    selectPages 10 3 (some 8) none ("") ("5") = [3, 4, 6, 7, 8] := by
  refine ⟨fun total start endP maxP inc exc => ?_, by decide⟩
  have hsorted : (selectPages total start endP maxP inc exc).Sorted (· < ·) := by
    unfold selectPages
    by_cases h : parsePageSpec inc total ≠ []
    · rw [if_pos h]
      exact List.Pairwise.filter _ (parsePageSpec_sorted inc total)
    · rw [if_neg h]
      exact List.Pairwise.filter _ (List.pairwise_lt_range' _ _)
  refine ⟨?_, hsorted, hsorted.nodup⟩
  unfold selectPages selectPagesSpec
  by_cases h : parsePageSpec inc total ≠ []
  · rw [if_pos h, if_pos h]
    apply List.filter_congr
    intro p _
    simp [List.contains, Bool.and_assoc]
  · rw [if_neg h, if_neg h]
    apply List.filter_congr
    intro p _
    simp [List.contains]

/- ### Claim C5 -/

/-- C5: a PDF convert request whose resolved page selection is empty fails
as a whole: the thrown NoPagesSelected error is caught and translated to an
HTTP 500 response carrying the failure message, and no markdown response is
produced. -/
theorem c5_empty_selection_fails (req : ConvertReq) (imageResp : Option String)
    (total start : Nat) (endP maxP : Option Nat) (inc exc : String) (pageResp : Nat → String)
    (hmode : resolveMode req = .inr ConvertMode.pdf)
    (hempty : selectPages total start endP maxP inc exc = []) :
    convertPOST req true imageResp total start endP maxP inc exc pageResp =
      .err 500 ("Failed to convert to Markdown.")
        (some ("No pages selected after applying include/exclude.")) ∧
    ∀ md, convertPOST req true imageResp total start endP maxP inc exc pageResp
      ≠ .ok md := by
  have h1 : convertPOST req true imageResp total start endP maxP inc exc pageResp =
      .err 500 ("Failed to convert to Markdown.")
        (some ("No pages selected after applying include/exclude.")) := by
    unfold convertPOST
    rw [hmode]
    simp [hempty]
  refine ⟨h1, fun md hc => ?_⟩
  rw [h1] at hc
  cases hc

/-- Witness for C5: a ten-page PDF with start 3, end 8, include 4 and
exclude 4 selects nothing and yields the 500 response. -/
theorem c5_empty_selection_fails_witness :
    convertPOST (.formFile ("application/pdf") ("doc.pdf")) true none 10 3 (some 8) none
      ("4") ("4") (fun _ => ("")) =
      .err 500 ("Failed to convert to Markdown.")
        (some ("No pages selected after applying include/exclude.")) :=
  (c5_empty_selection_fails (.formFile ("application/pdf") ("doc.pdf")) none 10 3 (some 8)
    none ("4") ("4") (fun _ => ("")) (by decide) (by decide)).1

/- ### Invariant of the dispatcher machine -/

/-- Dispatcher invariant: the result buffer keeps its length, at most `n`
inputs have been started, every in-flight index has been started, and every
started index that is no longer in flight holds the result of its worker at its
own input position. -/
def DInv (n : Nat) (fn : Nat → β) (s : MState β) : Prop :=
  s.results.length = n ∧ s.nextIndex ≤ n ∧
  (∀ i ∈ s.active, i < s.nextIndex) ∧
  (∀ i, i < s.nextIndex → i ∉ s.active → s.results[i]? = some (some (fn i)))

theorem mem_eraseIdx_of_ne {l : List Nat} {j a b : Nat}
    (hg : l.get? j = some b) (ha : a ∈ l) (hab : a ≠ b) : a ∈ l.eraseIdx j := by
  induction l generalizing j with
  | nil => cases ha
  | cons x xs ih =>
    cases j with
    | zero =>
      simp only [List.get?_cons_zero, Option.some.injEq] at hg
      rcases List.mem_cons.mp ha with rfl | ha
      · exact absurd hg.symm (fun he => hab he.symm)
      · simpa [List.eraseIdx] using ha
    | succ j =>
      simp only [List.get?_cons_succ] at hg
      rcases List.mem_cons.mp ha with rfl | ha
      · simp [List.eraseIdx]
      · simp only [List.eraseIdx, List.mem_cons]
        exact Or.inr (ih hg ha)

theorem launchLoop_inv (limit n : Nat) (fn : Nat → β) :
    ∀ (fuel : Nat) (s : MState β), DInv n fn s → DInv n fn (launchLoop limit n fuel s) := by
  intro fuel
  induction fuel with
  | zero => intro s hs; exact hs
  | succ fuel ih =>
    intro s hs
    unfold launchLoop
    by_cases hc : s.active.length < limit ∧ s.nextIndex < n
    · rw [if_pos hc]
      apply ih
      obtain ⟨hlen, hle, hact, hres⟩ := hs
      refine ⟨hlen, hc.2, ?_, ?_⟩
      · intro i hi
        rcases List.mem_append.mp hi with hi | hi
        · exact Nat.lt_succ_of_lt (hact i hi)
        · simp only [List.mem_singleton] at hi
          exact hi ▸ Nat.lt_succ_self _
      · intro i hlt hni
        simp only [List.mem_append, List.mem_singleton, not_or] at hni
        have hi : i < s.nextIndex := by
          rcases Nat.lt_succ_iff_lt_or_eq.mp hlt with h | h
          · exact h
          · exact absurd h hni.2
        exact hres i hi hni.1
    · rw [if_neg hc]
      exact hs

theorem launchNext_inv (limit n : Nat) (fn : Nat → β) (s : MState β)
    (hs : DInv n fn s) : DInv n fn (launchNext limit n s) :=
  launchLoop_inv limit n fn _ s hs

theorem dispatchStep_inv (limit n : Nat) (fn : Nat → β) (j : Nat) (s : MState β)
    (hs : DInv n fn s) : DInv n fn (dispatchStep limit n fn j s) := by
  unfold dispatchStep
  cases hg : s.active.get? j with
  | none => exact hs
  | some i =>
    apply launchNext_inv
    obtain ⟨hlen, hle, hact, hres⟩ := hs
    have hi : i ∈ s.active := by
      have := List.get?_eq_some.mp hg
      obtain ⟨hj, he⟩ := this
      exact he ▸ List.get_mem _ _ _
    have hilt : i < s.nextIndex := hact i hi
    refine ⟨by simpa using hlen, hle, ?_, ?_⟩
    · intro i' hi'
      exact hact i' ((List.eraseIdx_sublist _ _).subset hi')
    · intro i' hlt hni
      by_cases hii : i' = i
      · subst hii
        exact (List.getElem?_set_self (by omega)).trans rfl
      · rw [List.getElem?_set_ne (fun he => hii he.symm)]
        refine hres i' hlt ?_
        intro hmem
        exact hni (mem_eraseIdx_of_ne hg hmem hii)

theorem foldl_dispatch_inv (limit n : Nat) (fn : Nat → β) (sched : List Nat)
    (s : MState β) (hs : DInv n fn s) :
    DInv n fn (sched.foldl (fun s j => dispatchStep limit n fn j s) s) := by
  induction sched generalizing s with
  | nil => exact hs
  | cons j js ih => exact ih _ (dispatchStep_inv limit n fn j s hs)

theorem runMapLimit_inv (limit n : Nat) (fn : Nat → β) (sched : List Nat) :
    DInv n fn (runMapLimit limit n fn sched) := by
  unfold runMapLimit
  apply foldl_dispatch_inv
  apply launchNext_inv
  refine ⟨by simp, Nat.zero_le n, by simp, ?_⟩
  intro i hlt
  exact absurd hlt (by simp)

/- ### Claim C6 -/

/-- C6: for every input count, concurrency limit and pure per-index worker,
whenever the dispatcher reaches its resolution condition (all inputs
started and none in flight) under any completion schedule, the result
sequence has one slot per input and slot `i` holds the result of the worker for
input `i`, regardless of the completion order taken. -/
theorem c6_mapLimit_positional {β : Type} (limit n : Nat) (fn : Nat → β) (sched : List Nat)
    (hdone : (runMapLimit limit n fn sched).active = [] ∧
      n ≤ (runMapLimit limit n fn sched).nextIndex) :
    (runMapLimit limit n fn sched).results.length = n ∧
    (runMapLimit limit n fn sched).results = (List.range n).map (fun i => some (fn i)) := by
  obtain ⟨hlen, hle, hact, hres⟩ := runMapLimit_inv limit n fn sched
  refine ⟨hlen, ?_⟩
  apply List.ext_getElem?
  intro i
  by_cases hi : i < n
  · rw [hres i (lt_of_lt_of_le hi hdone.2) (by simp [hdone.1])]
    simp [List.getElem?_range, hi]
  · rw [List.getElem?_eq_none (by omega), List.getElem?_eq_none (by simpa using by omega)]

/-- Witness for C6: three inputs under concurrency two, with the schedule
completing task B and then task C before task A; the results still sit in
input order. -/
theorem c6_mapLimit_positional_witness :
    (runMapLimit 2 3 (fun i => 10 * i) [1, 1, 0]).results =
      (List.range 3).map (fun i => some (10 * i)) :=
  (c6_mapLimit_positional 2 3 (fun i => 10 * i) [1, 1, 0] (by decide)).2

/- ### Claim C7 -/

/-- Aggregation as claimed by the specification sentence, with the filter
phrase as the claim words it: a page is dropped when its trimmed response
is empty or contains the given phrase as a case-insensitive substring. -/
def aggregateWithPhrase (phrase : String) (pageResults : List (Nat × String)) : String :=
  let trimmed := pageResults.map fun r => (r.1, String.mk (jsTrimL r.2.data))
  let survivors := trimmed.filter fun r => r.2 ≠ ("") && !(ciContains r.2 phrase)
  if survivors = [] then ("No tables detected in the document.")
  else joinSep ("\n\n") ((sortByPage survivors).map fun r => pageHeading r.1 r.2)

/-- The aggregation the claim describes: pages are dropped exactly when empty or
containing the full no-tables sentinel of the protocol. -/
def aggregateClaimed : List (Nat × String) → String :=
  aggregateWithPhrase ("No tables detected in the image.")

theorem insertByPage_length (x : Nat × String) (l : List (Nat × String)) :
    (insertByPage x l).length = l.length + 1 := by
  induction l with
  | nil => rfl
  | cons y ys ih =>
    unfold insertByPage
    by_cases h : x.1 ≤ y.1
    · simp [h]
    · simp [h, ih]

theorem sortByPage_length (l : List (Nat × String)) :
    (sortByPage l).length = l.length := by
  induction l with
  | nil => rfl
  | cons x xs ih =>
    unfold sortByPage at ih ⊢
    simp [List.foldr_cons, insertByPage_length, ih]

/-- Counterexample to C7: a page whose trimmed response is non-empty and
does not contain the sentinel string "No tables detected in the image.",
yet is dropped by the code (which filters on the shorter phrase matched by
the regex), so the aggregate is the document sentinel where the claim
predicts the page survives. -/
theorem c7_sentinel_substring_counterexample :
    aggregatePages [(1, ("No tables detected here: | a | 1 |"))]
        = ("No tables detected in the document.") ∧
    aggregateClaimed [(1, ("No tables detected here: | a | 1 |"))]
        = ("### Page 1\n\nNo tables detected here: | a | 1 |") ∧
    ciContains ("No tables detected here: | a | 1 |")
        ("No tables detected in the image.") = false ∧
    String.mk (jsTrimL ("No tables detected here: | a | 1 |").data)
        = ("No tables detected here: | a | 1 |") := by
  refine ⟨by decide, by decide, by decide, by decide⟩

/-- C7 (amended): the aggregation drops every page whose trimmed response
is empty or contains the phrase "No tables detected" as a case-insensitive
substring (rather than the full image sentinel), prefixes each surviving
page with its page heading, concatenates the survivors in ascending page
order separated by a blank line, and yields exactly the document sentinel
when no page survives; in particular pages answering exactly the image
sentinel contribute nothing. -/
theorem c7_aggregation_amended :
    (∀ rs, aggregatePages rs = aggregateWithPhrase ("No tables detected") rs) ∧
    (∀ rs, (∀ r ∈ rs, String.mk (jsTrimL (r.2 : String).data) = ("") ∨
        ciContains (String.mk (jsTrimL r.2.data)) ("No tables detected") = true) →
      aggregatePages rs = ("No tables detected in the document.")) ∧
    aggregatePages
        [(1, ("No tables detected in the image.")), (2, ("No tables detected in the image."))]
      = ("No tables detected in the document.") := by
  have hdropped : ∀ rs : List (Nat × String),
      (∀ r ∈ rs, String.mk (jsTrimL (r.2 : String).data) = ("") ∨
      ciContains (String.mk (jsTrimL r.2.data)) ("No tables detected") = true) →
      (rs.map fun r => ((r.1 : Nat), String.mk (jsTrimL r.2.data))).filter
        (fun r => r.2 ≠ ("") && !(ciContains r.2 ("No tables detected"))) = [] := by
    intro rs h
    rw [List.filter_eq_nil_iff]
    intro a ha
    obtain ⟨r, hr, he⟩ := List.mem_map.mp ha
    rcases h r hr with hempty | hphrase
    · simp [← he, hempty]
    · simp [← he, hphrase]
  refine ⟨fun rs => ?_, fun rs h => ?_, by decide⟩
  · simp only [aggregatePages, aggregateWithPhrase]
    split
    · rename_i h1
      split
      · rename_i h2
        exfalso
        rw [h2] at h1
        simp [sortByPage] at h1
      · rfl
    · rename_i h1
      rw [not_not] at h1
      split
      · rfl
      · rename_i h2
        exfalso
        apply h2
        have hl := congrArg List.length h1
        simp only [List.length_map, sortByPage_length, List.length_nil] at hl
        exact List.length_eq_zero.mp hl
  · simp only [aggregatePages]
    rw [hdropped rs h]
    simp [sortByPage]

/-- Witness for the amended C7 at a whitespace-only page response. -/
theorem c7_aggregation_amended_witness :
    aggregatePages [(3, ("  "))] = ("No tables detected in the document.") :=
  c7_aggregation_amended.2.1 [(3, ("  "))] (by decide)

/- ### Claim C8 -/

/-- C8: in the heuristic extractor, for a field with a non-empty exclude
list and a non-empty candidate value, the value is blanked exactly when it
contains an exclude term case-insensitively and does not also contain one
of the own match terms of the field; a value containing a match term is never
discarded; and the line Shutoff TDH: 15.5 m yields 15.5 m for the
shutoff TDH field. -/
theorem c8_exclude_precedence (md k v : String)
    (hex : effExclude k ≠ [])
    (hv : findValueByKeys (effKeys k) (linesOf md) = v)
    (hne : v ≠ ("")) :
    ((heurValue md k = ("")) ↔
      ((effExclude k).any (fun ex => ciContains v ex) = true ∧
        (effKeys k).any (fun kk => ciContains v kk) = false)) ∧
    ((effKeys k).any (fun kk => ciContains v kk) = true → heurValue md k = v) ∧
    heurValue ("Shutoff TDH: 15.5 m") ("shutoff TDH") = ("15.5 m") := by
  have hval : heurValue md k =
      if effExclude k ≠ [] ∧ v ≠ ("") ∧
          (¬ (effKeys k).any (fun kk => ciContains v kk)) ∧
          ((effExclude k).any (fun ex => ciContains v ex)) then ("") else v := by
    simp only [heurValue, hv]
  refine ⟨?_, ?_, by decide⟩
  · by_cases hA : (effKeys k).any (fun kk => ciContains v kk)
    · rw [hval, if_neg (by simp [hA])]
      simp [hA, hne]
    · by_cases hB : (effExclude k).any (fun ex => ciContains v ex)
      · rw [hval, if_pos ⟨hex, hne, by simp [hA], hB⟩]
        simp only [Bool.not_eq_true] at hA
        simp [hA, hB]
      · rw [hval, if_neg (by simp [hB])]
        simp [hB, hne]
  · intro hA
    rw [hval, if_neg (by simp [hA])]

/-- Witness for C8 at the example line of the spec itself and field. -/
theorem c8_exclude_precedence_witness :
    heurValue ("Shutoff TDH: 15.5 m") ("shutoff TDH") = ("15.5 m") :=
  (c8_exclude_precedence ("Shutoff TDH: 15.5 m") ("shutoff TDH") ("15.5 m")
    (by decide) (by decide) (by decide)).2.2

/- ### Claim C9 -/

/-- Per-line scan as the claim words it: a line matches when the value
regex (pattern i) or the pipe-table row check (pattern ii) matches it. -/
def claimLineValue (keys : List String) (line : List Char) : Option String :=
  match matchLine keys line with
  | some g => some (String.mk (jsTrimL g))
  | none => tableRowValue keys line

/-- The interleaved scan of the claim: the first line, top to bottom, matching
either pattern yields the value. -/
def claimFindValue (keys : List String) (lines : List (List Char)) : String :=
  match lines.findSome? (claimLineValue keys) with
  | some v => v
  | none => ("")

/-- Counterexample to C9: for the pump model name field, a markdown whose
first line is a pipe-table row matching only pattern (ii) and whose second
line matches pattern (i); the claimed interleaved scan returns the first
cell of the first line, but the code returns the value on the second line, because the code
scans all lines with pattern (i) before ever trying pattern (ii). -/
theorem c9_scan_order_counterexample :
    claimFindValue (effKeys ("pump model name"))
        (linesOf ("| My Model | ABC |\nmodel: XYZ")) = ("ABC") ∧
    findValueByKeys (effKeys ("pump model name"))
        (linesOf ("| My Model | ABC |\nmodel: XYZ")) = ("XYZ") ∧
    ("ABC") ≠ ("XYZ") := by
  refine ⟨by decide, by decide, by decide⟩

/-- C9 (amended): the line scan is two-phase: pattern (i) (the key
separator value regex) is scanned over all lines first, top to bottom, and
the first match wins; only when no line matches pattern (i) are all lines
scanned as pipe-table rows (pattern ii); hence a pattern-(i) match on a
later line wins over a pattern-(ii) match on an earlier line. -/
theorem c9_two_phase_scan (keys : List String) (lines : List (List Char)) :
    (∀ v, regexScan keys lines = some v → findValueByKeys keys lines = v) ∧
    (regexScan keys lines = none →
      findValueByKeys keys lines = (tableScan keys lines).getD ("")) ∧
    findValueByKeys (effKeys ("pump model name"))
      (linesOf ("| My Model | ABC |\nmodel: XYZ")) = ("XYZ") := by
  refine ⟨fun v hv => ?_, fun hn => ?_, by decide⟩
  · unfold findValueByKeys
    rw [hv]
  · unfold findValueByKeys
    rw [hn]
    cases tableScan keys lines <;> rfl

/-- Witness for the amended C9 at the counterexample markdown. -/
theorem c9_two_phase_scan_witness :
    findValueByKeys (effKeys ("pump model name"))
        (linesOf ("| My Model | ABC |\nmodel: XYZ")) = ("XYZ") :=
  (c9_two_phase_scan (effKeys ("pump model name"))
    (linesOf ("| My Model | ABC |\nmodel: XYZ"))).1 ("XYZ") (by decide)

/- ### Claim C10 -/

/-- C10: when Convert receives a single image (a JSON body with an image
data URL, or an uploaded image file), the response of the model is returned as
the markdown verbatim, with no sentinel filtering, page heading or
aggregation; an image with no tables yields the image sentinel verbatim,
and an empty model response yields the literal No content extracted. -/
theorem c10_image_mode_verbatim (resp : Option String) (d ft name : String)
    (hd : hasPrefixCh (("data:image/").data) d.data = true)
    (hf : hasPrefixCh (("image/").data) (lowerStr ft).data = true)
    (total start : Nat) (endP maxP : Option Nat) (inc exc : String) (pageResp : Nat → String) :
    convertPOST (.jsonBody (some d)) true resp total start endP maxP inc exc pageResp =
      .ok (imageMarkdown resp) ∧
    convertPOST (.formFile ft name) true resp total start endP maxP inc exc pageResp =
      .ok (imageMarkdown resp) ∧
    (∀ c, c ≠ ("") → imageMarkdown (some c) = c) ∧
    imageMarkdown (some ("")) = ("No content extracted") ∧
    imageMarkdown none = ("No content extracted") ∧
    imageMarkdown (some ("No tables detected in the image.")) =
      ("No tables detected in the image.") := by
  refine ⟨?_, ?_, fun c hc => ?_, by decide, rfl, by decide⟩
  · simp [convertPOST, resolveMode, hd]
  · simp [convertPOST, resolveMode, hf]
  · simp [imageMarkdown, hc]

/-- Witness for C10 at a concrete image data URL and a short response. -/
theorem c10_image_mode_verbatim_witness :
    convertPOST (.jsonBody (some ("data:image/png;base64,AA"))) true (some ("| a | 1 |"))
      1 1 none none ("") ("") (fun _ => ("")) = .ok (imageMarkdown (some ("| a | 1 |"))) :=
  (c10_image_mode_verbatim (some ("| a | 1 |")) ("data:image/png;base64,AA") ("image/png")
    ("x.png") (by decide) (by decide) 1 1 none none ("") ("") (fun _ => (""))).1
